import Mathlib

/-!
Verification of `scraper.py` (Singapore government email-domain scraper).

The Python source is shallowly embedded: markup documents become a tree
type `Html`, `BeautifulSoup.get_text` becomes `getText`, the regex
`@[\w\.\-]+\.gov\.sg` (with `re.IGNORECASE`) becomes an executable
scanner `findMatches`, and the iteration loop of
`scrape_govt_email_domains` becomes a step function `loopStep` driven by
a stream of round outcomes, with fuel counting executed rounds.
-/

namespace SgScraper

mutual

/-- A markup document: text nodes and tags with attributes and children.
Children are a dedicated list type so that all recursions stay
structural. -/
inductive Html where
  | text : String → Html
  | tag : String → List (String × String) → HtmlList → Html

inductive HtmlList where
  | nil : HtmlList
  | cons : Html → HtmlList → HtmlList

end

mutual

/-- The model of `BeautifulSoup.get_text()`: the concatenated text content
of a document, tag structure discarded. -/
def getText : Html → String
  | .text s => s
  | .tag _ _ children => getTextL children

def getTextL : HtmlList → String
  | .nil => ""
  | .cons h t => getText h ++ getTextL t

end

mutual

/-- All tag elements of a document in pre-order, as `soup.find_all`
traverses them. -/
def allElems : Html → List Html
  | .text _ => []
  | .tag n a c => Html.tag n a c :: allElemsL c

def allElemsL : HtmlList → List Html
  | .nil => []
  | .cons h t => allElems h ++ allElemsL t

end

/-- Attribute lookup on a tag (`element["id"]` etc.); `none` when the
attribute is absent or the node is a text node. -/
def getAttr (attrName : String) : Html → Option String
  | .text _ => none
  | .tag _ attrs _ => (attrs.find? (fun p => p.1 == attrName)).map Prod.snd

/-- Python `\w` on the ASCII range: letters, digits, underscore. -/
def isWordChar (c : Char) : Bool :=
  c.isAlpha || c.isDigit || c == '_'

/-- A character of the regex class `[\w\.\-]`. -/
def isMidChar (c : Char) : Bool :=
  isWordChar c || c == '.' || c == '-'

/-- The literal tail `\.gov\.sg` of the pattern, in lowercase. -/
def suffixChars : List Char := ['.', 'g', 'o', 'v', '.', 's', 'g']

/-- Does `.gov.sg` occur (case-insensitively) at offset `k` of `l`? -/
def suffixOk (l : List Char) (k : Nat) : Bool :=
  ((l.drop k).take 7).map Char.toLower == suffixChars

/-- Greedy backtracking for the `+` in `@[\w\.\-]+\.gov\.sg`: the
largest `k ≤ m`, `k ≥ 1`, such that the literal suffix matches right
after `k` middle characters. -/
def findK (l : List Char) : Nat → Option Nat
  | 0 => none
  | k + 1 => if suffixOk l (k + 1) then some (k + 1) else findK l k

/-- Length of the maximal run of `[\w\.\-]` characters at the front. -/
def midRun (l : List Char) : Nat :=
  (l.takeWhile isMidChar).length

/-- Try to match `@[\w\.\-]+\.gov\.sg` (case-insensitive) at the head of
`l`; returns the length of the (greedy) match. -/
def tryMatchLen : List Char → Option Nat
  | [] => none
  | c :: rest =>
    if c = '@' then (findK rest (midRun rest)).map (fun k => k + 8) else none

/-- Scanning as in `re.findall`: try a match at each position, skip one
character on failure, continue after the match on success.  Fuel is the
remaining length, which every step strictly decreases. -/
def findMatchesAux : Nat → List Char → List (List Char)
  | 0, _ => []
  | fuel + 1, l =>
    match l with
    | [] => []
    | c :: rest =>
      match tryMatchLen (c :: rest) with
      | some n => (c :: rest).take n :: findMatchesAux fuel (rest.drop (n - 1))
      | none => findMatchesAux fuel rest

/-- All matches of `@[\w\.\-]+\.gov\.sg` (case-insensitive) in a string,
left to right, non-overlapping. -/
def findMatches (l : List Char) : List (List Char) :=
  findMatchesAux l.length l

/-- Python `str.lower()`, modelled as character-wise `Char.toLower`
(the scraped data is ASCII). -/
def lowerStr (s : String) : String :=
  String.mk (s.data.map Char.toLower)

/-- The regex-and-set part of `extract_email_domains`: find all pattern
matches in a text and collect them lowercased into a set. -/
def extractText (s : String) : Finset String :=
  ((findMatches s.data).map (fun m => lowerStr (String.mk m))).toFinset

/-- The function `extract_email_domains` from `scraper.py`: parse the markup, take
its text content, and return the set of lowercased pattern matches. -/
def extract_email_domains (h : Html) : Finset String :=
  extractText (getText h)

/-- Case-insensitive substring occurrence of `pat` in `hay`
(`re.search` of a literal pattern with `re.IGNORECASE`). -/
def containsSub (pat : List Char) : List Char → Bool
  | [] => pat.isEmpty
  | c :: rest => pat.isPrefixOf (c :: rest) || containsSub pat rest

/-- Case-insensitive substring test on strings. -/
def containsCI (hay pat : String) : Bool :=
  containsSub (pat.data.map Char.toLower) (hay.data.map Char.toLower)

/-- Membership test of `find_all(id=re.compile(r"SearchResult", re.IGNORECASE))`:
the element has an `id` attribute containing `SearchResult`
case-insensitively. -/
def idMatchesSearchResult (h : Html) : Bool :=
  match getAttr "id" h with
  | some v => containsCI v "SearchResult"
  | none => false

/-- Membership test of `find_all(class_=re.compile(r"result|search", re.IGNORECASE))`
on the `class` attribute. -/
def classMatchesResult (h : Html) : Bool :=
  match getAttr "class" h with
  | some v => containsCI v "result" || containsCI v "search"
  | none => false

/-- The sub-elements `scrape_govt_email_domains` scopes extraction to:
elements whose `id` matches `SearchResult`, else elements whose `class`
matches `result|search`. -/
def selectedElems (page : Html) : List Html :=
  let byId := (allElems page).filter idMatchesSearchResult
  if byId.isEmpty then (allElems page).filter classMatchesResult else byId

/-- The per-round extraction of `scrape_govt_email_domains` (lines
112-139): union of `extract_email_domains` over the selected
sub-elements, falling back to the whole page when none are found. -/
def scopedExtract (page : Html) : Finset String :=
  let els := selectedElems page
  if els.isEmpty then extract_email_domains page
  else els.foldl (fun acc e => acc ∪ extract_email_domains e) ∅

/-- Outcome of one round of the loop body, as decided by the browser
environment: a successful trigger-and-wait delivering the page source, a
`JavascriptException` from `LoadData`, a `TimeoutException` from the
wait, or any other exception. -/
inductive RoundOutcome where
  | success : Html → RoundOutcome
  | jsError : RoundOutcome
  | timeoutErr : RoundOutcome
  | otherError : RoundOutcome

/-- The mutable loop variables of `scrape_govt_email_domains`:
`iteration`, `consecutive_no_new_data`, and `all_domains`. -/
structure LoopState where
  iteration : Nat
  noNewData : Nat
  allDomains : Finset String
deriving DecidableEq

/-- How the loop ended: the `while` guard failed (`iteration` exceeded
`max_iterations`), the consecutive-no-progress threshold was reached, or
a fatal error (`JavascriptException` or unclassified) broke the loop. -/
inductive FinalReason where
  | capReached : FinalReason
  | noProgress : FinalReason
  | fatal : FinalReason
deriving DecidableEq

/-- Result of one loop pass: continue with updated state, or break with
a reason, carrying the accumulated set. -/
inductive StepResult where
  | next : LoopState → StepResult
  | stop : FinalReason → Finset String → StepResult
deriving DecidableEq

/-- One pass of the loop body of `scrape_govt_email_domains` (lines
100-175), given the round's outcome.  On success the page is scoped and
extracted, new domains are merged (resetting the counter) or the counter
is incremented and checked against the threshold; a timeout increments
and checks the counter; `JavascriptException` and unclassified errors
break immediately. -/
def loopStep (threshold : Nat) (o : RoundOutcome) (st : LoopState) : StepResult :=
  match o with
  | .success page =>
    let iterationDomains := scopedExtract page
    let newDomains := iterationDomains \ st.allDomains
    if newDomains ≠ ∅ then
      .next ⟨st.iteration + 1, 0, st.allDomains ∪ newDomains⟩
    else
      if threshold ≤ st.noNewData + 1 then .stop .noProgress st.allDomains
      else .next ⟨st.iteration + 1, st.noNewData + 1, st.allDomains⟩
  | .timeoutErr =>
    if threshold ≤ st.noNewData + 1 then .stop .noProgress st.allDomains
    else .next ⟨st.iteration + 1, st.noNewData + 1, st.allDomains⟩
  | .jsError => .stop .fatal st.allDomains
  | .otherError => .stop .fatal st.allDomains

/-- The final reason together with the returned accumulated set. -/
structure RunResult where
  reason : FinalReason
  domains : Finset String
deriving DecidableEq

/-- The `while iteration <= max_iterations` loop, driven by the stream
`outcomes` of round results (round `i` sees `outcomes i`).  `fuel`
bounds the number of executed rounds; the cap check consumes no fuel,
mirroring the `while` guard. -/
def runAux (cap threshold : Nat) (outcomes : Nat → RoundOutcome) :
    Nat → LoopState → Option RunResult
  | 0, st =>
    if cap < st.iteration then some ⟨.capReached, st.allDomains⟩ else none
  | fuel + 1, st =>
    if cap < st.iteration then some ⟨.capReached, st.allDomains⟩
    else
      match loopStep threshold (outcomes st.iteration) st with
      | .next st' => runAux cap threshold outcomes fuel st'
      | .stop r d => some ⟨r, d⟩

/-- The loop of `scrape_govt_email_domains`, started from iteration 1,
counter 0 and an empty set, with fuel `cap + threshold` rounds (the
bound the specification claims). -/
def scrapeRun (cap threshold : Nat) (outcomes : Nat → RoundOutcome) :
    Option RunResult :=
  runAux cap threshold outcomes (cap + threshold) ⟨1, 0, ∅⟩

/-- Did the round contribute at least one domain not already
accumulated? -/
def roundHasNew (o : RoundOutcome) (st : LoopState) : Bool :=
  match o with
  | .success page => decide (scopedExtract page \ st.allDomains ≠ ∅)
  | _ => false

/-- The accumulated set carried by a step result. -/
def stepDomains : StepResult → Finset String
  | .next st => st.allDomains
  | .stop _ d => d

/-- Python `sorted(domains)` on a set of strings: lexicographic by code
points, the order of Lean's `String` linear order. -/
def sortedDomains (domains : Finset String) : List String :=
  domains.sort (· ≤ ·)

/-- The function `save_results` from `scraper.py`, modelled as the file
content it writes: one `f.write` of the domain followed by a newline for
each domain in sorted order, i.e. a left fold of appends. -/
def save_results (domains : Finset String) : String :=
  (sortedDomains domains).foldl (fun acc d => acc ++ d ++ "\n") ""

/-- The persistence step of `main` (lines 212-225), modelled as the pair
of artifacts written: the text file content and the JSON array (as its
list of strings, `sorted(list(domains))`).  `main` only saves when the
set is non-empty (`if domains:`); otherwise nothing is written. -/
def mainArtifacts (domains : Finset String) : Option (String × List String) :=
  if domains ≠ ∅ then some (save_results domains, sortedDomains domains)
  else none

/-- The canonical (lowercase) domain pattern of the specification:
an at sign, then one or more word characters, dots, or hyphens, then
the literal lowercase suffix `.gov.sg`. -/
def matchesGovPattern (s : String) : Bool :=
  match s.data with
  | '@' :: rest =>
    decide (8 ≤ rest.length) && (rest.drop (rest.length - 7) == suffixChars)
      && (rest.take (rest.length - 7)).all isMidChar
  | _ => false

/-- Shape of every raw (pre-lowercasing) match the scanner returns. -/
def MatchShape (m : List Char) : Prop :=
  ∃ mid sfx, m = '@' :: (mid ++ sfx) ∧ mid ≠ [] ∧ mid.all isMidChar ∧
    sfx.map Char.toLower = suffixChars

/-- Modelled from the spec: the spec asks the scoped variant to run
extraction on the concatenation of the selected sub-elements' markup
(serialising each element and re-parsing the concatenated markup yields
the concatenation of their text content). -/
def specConcatExtract (els : List Html) : Finset String :=
  extractText (String.join (els.map getText))

/-- The page refuting C6 as stated: two selected sub-elements whose text
contents form a pattern match only once concatenated. -/
def cePage : Html :=
  Html.tag "html" []
    (HtmlList.cons
      (Html.tag "div" [("id", "SearchResult1")]
        (HtmlList.cons (Html.text "x@a") HtmlList.nil))
      (HtmlList.cons
        (Html.tag "div" [("id", "SearchResult2")]
          (HtmlList.cons (Html.text ".gov.sg") HtmlList.nil))
        HtmlList.nil))

/-- A page whose scoped extraction yields exactly the one domain
`@moe.gov.sg` in every round. -/
def moePage : Html := Html.text "contact a@moe.gov.sg"

/-- The page for C10: the address appears only inside an attribute
value, never in the text content. -/
def attrPage : Html :=
  Html.tag "a" [("href", "mailto:john@moe.gov.sg")]
    (HtmlList.cons (Html.text "Contact us") HtmlList.nil)

lemma char_toLower_eq (c : Char) :
    c.toLower = if 65 ≤ c.toNat ∧ c.toNat ≤ 90 then Char.ofNat (c.toNat + 32) else c := rfl

lemma upper_shift_toLower : ∀ m : Nat, 65 ≤ m → m ≤ 90 →
    (Char.ofNat (m + 32)).toLower = Char.ofNat (m + 32) := by
  intro m h1 h2
  interval_cases m <;> decide

lemma upper_shift_mid : ∀ m : Nat, 65 ≤ m → m ≤ 90 →
    isMidChar (Char.ofNat (m + 32)) = true := by
  intro m h1 h2
  interval_cases m <;> decide

lemma toLower_idem (c : Char) : c.toLower.toLower = c.toLower := by
  rw [char_toLower_eq c]
  split
  · next h => exact upper_shift_toLower c.toNat h.1 h.2
  · next h => rw [char_toLower_eq c, if_neg h]

lemma toLower_mid {c : Char} (hc : isMidChar c = true) :
    isMidChar c.toLower = true := by
  rw [char_toLower_eq c]
  split
  · next h => exact upper_shift_mid c.toNat h.1 h.2
  · exact hc

lemma findK_spec (l : List Char) :
    ∀ m k, findK l m = some k →
      1 ≤ k ∧ k ≤ m ∧ ((l.drop k).take 7).map Char.toLower = suffixChars := by
  intro m
  induction m with
  | zero => intro k h; simp [findK] at h
  | succ m ih =>
    intro k h
    rw [findK] at h
    split at h
    · next hs =>
      cases h
      refine ⟨by omega, Nat.le_refl _, ?_⟩
      simpa [suffixOk] using hs
    · obtain ⟨a, b, c⟩ := ih k h
      exact ⟨a, by omega, c⟩

lemma all_take_of_le_midrun :
    ∀ (l : List Char) (k : Nat), k ≤ midRun l → (l.take k).all isMidChar := by
  intro l
  induction l with
  | nil => intro k hk; simp
  | cons c t ih =>
    intro k hk
    cases k with
    | zero => simp
    | succ k =>
      by_cases hc : isMidChar c
      · rw [midRun, List.takeWhile_cons, if_pos hc] at hk
        simp only [List.length_cons, Nat.succ_le_succ_iff] at hk
        rw [List.take_succ_cons]
        simp only [List.all_cons, hc, Bool.true_and]
        exact ih k hk
      · rw [midRun, List.takeWhile_cons, if_neg hc] at hk
        simp at hk

lemma tryMatch_spec {l : List Char} {n : Nat} (h : tryMatchLen l = some n) :
    ∃ rest k, l = '@' :: rest ∧ n = k + 8 ∧ 1 ≤ k ∧
      (rest.take k).all isMidChar ∧
      ((rest.drop k).take 7).map Char.toLower = suffixChars := by
  match l with
  | [] => simp [tryMatchLen] at h
  | c :: rest =>
    rw [tryMatchLen] at h
    split at h
    · next hc =>
      subst hc
      rw [Option.map_eq_some'] at h
      obtain ⟨k, hk, rfl⟩ := h
      obtain ⟨h1, h2, h3⟩ := findK_spec rest _ k hk
      exact ⟨rest, k, rfl, rfl, h1, all_take_of_le_midrun rest k h2, h3⟩
    · simp at h

lemma findMatchesAux_shape :
    ∀ fuel l m, m ∈ findMatchesAux fuel l → MatchShape m := by
  intro fuel
  induction fuel with
  | zero => intro l m h; simp [findMatchesAux] at h
  | succ fuel ih =>
    intro l m h
    match l with
    | [] => simp [findMatchesAux] at h
    | c :: rest =>
      rw [findMatchesAux] at h
      cases htm : tryMatchLen (c :: rest) with
      | none =>
        rw [htm] at h
        exact ih rest m h
      | some n =>
        rw [htm] at h
        rcases List.mem_cons.mp h with hm | hm
        · obtain ⟨rest', k, heq, hn, hk, hall, hsfx⟩ := tryMatch_spec htm
          injection heq with hc hr
          subst hc
          subst hr
          subst hn
          have hlen : ((rest.drop k).take 7).length = 7 := by
            rw [← List.length_map ((rest.drop k).take 7) Char.toLower, hsfx]
            rfl
          have hrlen : k + 7 ≤ rest.length := by
            have h7 := List.length_take 7 (rest.drop k)
            rw [List.length_drop] at h7
            omega
          refine ⟨rest.take k, (rest.drop k).take 7, ?_, ?_, hall, hsfx⟩
          · rw [hm, show k + 8 = (k + 7) + 1 from rfl, List.take_succ_cons,
              List.take_add]
          · intro hnil
            have : (rest.take k).length = 0 := by rw [hnil]; rfl
            rw [List.length_take] at this
            omega
        · exact ih _ m hm

lemma lowerStr_mk (l : List Char) :
    lowerStr (String.mk l) = String.mk (l.map Char.toLower) := rfl

lemma matchesGovPattern_cons (rest : List Char) :
    matchesGovPattern (String.mk ('@' :: rest)) =
      (decide (8 <= rest.length) && (rest.drop (rest.length - 7) == suffixChars)
        && (rest.take (rest.length - 7)).all isMidChar) := rfl

lemma lower_of_shape {m : List Char} (h : MatchShape m) :
    matchesGovPattern (lowerStr (String.mk m)) = true ∧
    lowerStr (lowerStr (String.mk m)) = lowerStr (String.mk m) := by
  obtain ⟨mid, sfx, rfl, hne, hall, hsfx⟩ := h
  have hmap : (('@' :: (mid ++ sfx)).map Char.toLower) =
      '@' :: (mid.map Char.toLower ++ suffixChars) := by
    rw [List.map_cons, List.map_append, hsfx]
    rfl
  have hmlen : 1 <= mid.length := by
    cases mid with
    | nil => exact absurd rfl hne
    | cons a t => simp
  have hlen : (mid.map Char.toLower ++ suffixChars).length = mid.length + 7 := by
    simp [suffixChars]
  constructor
  · rw [lowerStr_mk, hmap, matchesGovPattern_cons]
    rw [Bool.and_eq_true, Bool.and_eq_true]
    refine ⟨⟨?_, ?_⟩, ?_⟩
    · rw [decide_eq_true_iff, hlen]
      omega
    · have h7 : (mid.map Char.toLower ++ suffixChars).length - 7 =
          (mid.map Char.toLower).length := by simp [hlen]
      rw [h7, List.drop_left]
      exact beq_self_eq_true suffixChars
    · have h7 : (mid.map Char.toLower ++ suffixChars).length - 7 =
          (mid.map Char.toLower).length := by simp [hlen]
      rw [h7, List.take_left, List.all_map]
      rw [List.all_eq_true] at hall ⊢
      intro c hc
      exact toLower_mid (hall c hc)
  · rw [lowerStr_mk, lowerStr_mk, List.map_map]
    rw [show Char.toLower ∘ Char.toLower = Char.toLower from
      funext fun c => toLower_idem c]

/-- C1: every element of the set `extract_email_domains` returns matches
the pattern, is entirely lowercase, and the set has no duplicates. -/
theorem C1_extract_pattern (h : Html) :
    (∀ d ∈ extract_email_domains h,
      matchesGovPattern d = true ∧ lowerStr d = d) ∧
    (extract_email_domains h).val.Nodup := by
  refine ⟨?_, (extract_email_domains h).nodup⟩
  intro d hd
  rw [extract_email_domains, extractText, List.mem_toFinset, List.mem_map] at hd
  obtain ⟨m, hm, rfl⟩ := hd
  exact lower_of_shape (findMatchesAux_shape _ _ m hm)

theorem C1_witness :
    matchesGovPattern "@moe.gov.sg" = true ∧
    lowerStr "@moe.gov.sg" = "@moe.gov.sg" :=
  (C1_extract_pattern (Html.text "a@moe.gov.sg")).1 "@moe.gov.sg" (by decide)

lemma loopStep_next_iteration {threshold : Nat} {o : RoundOutcome}
    {st st' : LoopState} (h : loopStep threshold o st = .next st') :
    st'.iteration = st.iteration + 1 := by
  cases o <;> rw [loopStep] at h
  case success page =>
    split at h
    · cases h; rfl
    · split at h
      · cases h
      · cases h; rfl
  case timeoutErr =>
    split at h
    · cases h
    · cases h; rfl
  case jsError => cases h
  case otherError => cases h

lemma runAux_isSome (cap threshold : Nat) (outcomes : Nat → RoundOutcome) :
    ∀ fuel st, cap < st.iteration + fuel →
      (runAux cap threshold outcomes fuel st).isSome := by
  intro fuel
  induction fuel with
  | zero =>
    intro st h
    rw [runAux, if_pos (by omega)]
    rfl
  | succ fuel ih =>
    intro st h
    rw [runAux]
    split
    · rfl
    · next hle =>
      cases hstep : loopStep threshold (outcomes st.iteration) st with
      | next st' =>
        exact ih st' (by rw [loopStep_next_iteration hstep]; omega)
      | stop r d => rfl

/-- C2: for every cap, threshold and outcome stream, the loop reaches a
terminal state within cap + threshold rounds. -/
theorem C2_termination (cap threshold : Nat) (outcomes : Nat → RoundOutcome) :
    (scrapeRun cap threshold outcomes).isSome :=
  runAux_isSome cap threshold outcomes (cap + threshold) ⟨1, 0, ∅⟩
    (by show cap < 1 + (cap + threshold); omega)

/-- C3: one round never shrinks the accumulated set. -/
theorem C3_monotone (threshold : Nat) (o : RoundOutcome) (st : LoopState) :
    st.allDomains ⊆ stepDomains (loopStep threshold o st) := by
  cases o <;> rw [loopStep]
  case success page =>
    split
    · exact fun d hd => Finset.mem_union_left _ hd
    · split
      · exact fun d hd => hd
      · exact fun d hd => hd
  case timeoutErr =>
    split
    · exact fun d hd => hd
    · exact fun d hd => hd
  case jsError => exact fun d hd => hd
  case otherError => exact fun d hd => hd

/-- C4: the no-progress counter resets to 0 exactly when the round
contributes a new domain and increments otherwise; the loop stops with
the no-progress reason exactly when a non-fatal round contributes
nothing and the incremented counter reaches the threshold; a timeout
never causes a fatal stop. -/
theorem C4_counter (threshold : Nat) (o : RoundOutcome) (st : LoopState) :
    (∀ st', loopStep threshold o st = .next st' →
      st'.noNewData = if roundHasNew o st then 0 else st.noNewData + 1) ∧
    (loopStep threshold o st = .stop .noProgress st.allDomains ↔
      (roundHasNew o st = false ∧ o ≠ .jsError ∧ o ≠ .otherError ∧
        threshold ≤ st.noNewData + 1)) ∧
    (∀ d, loopStep threshold RoundOutcome.timeoutErr st ≠ .stop .fatal d) := by
  refine ⟨?_, ?_, ?_⟩
  · intro st' h
    cases o with
    | success page =>
      simp only [loopStep] at h
      rw [roundHasNew]
      split at h
      · next hnew =>
        cases h
        simp [hnew]
      · split at h
        · cases h
        · next hnew _ =>
          cases h
          simp [hnew]
    | timeoutErr =>
      simp only [loopStep] at h
      split at h
      · cases h
      · cases h
        simp [roundHasNew]
    | jsError => cases h
    | otherError => cases h
  · cases o with
    | success page =>
      simp only [loopStep, roundHasNew]
      split
      · next hnew =>
        simp [hnew]
      · next hnew =>
        split
        · next hth =>
          simp [hnew, hth]
        · next hth =>
          simp [hnew, hth]
    | timeoutErr =>
      simp only [loopStep, roundHasNew]
      split
      · next hth => simp [hth]
      · next hth => simp [hth]
    | jsError => simp [loopStep]
    | otherError => simp [loopStep]
  · intro d
    simp only [loopStep]
    split
    · simp
    · simp

theorem C4_witness :
    (⟨2, 1, (∅ : Finset String)⟩ : LoopState).noNewData =
      if roundHasNew RoundOutcome.timeoutErr ⟨1, 0, ∅⟩ then 0
      else (⟨1, 0, (∅ : Finset String)⟩ : LoopState).noNewData + 1 :=
  (C4_counter 5 RoundOutcome.timeoutErr ⟨1, 0, ∅⟩).1 ⟨2, 1, ∅⟩ (by decide)

/-- C5: a trigger (JavaScript) error or an unclassified error in a round
halts the loop at once and the run returns the set accumulated before
that round, unchanged. -/
theorem C5_fatal (cap threshold : Nat) (outcomes : Nat → RoundOutcome)
    (fuel : Nat) (st : LoopState)
    (hiter : st.iteration ≤ cap)
    (herr : outcomes st.iteration = .jsError ∨ outcomes st.iteration = .otherError) :
    runAux cap threshold outcomes (fuel + 1) st = some ⟨.fatal, st.allDomains⟩ := by
  rw [runAux, if_neg (by omega)]
  rcases herr with h | h <;> rw [h] <;> rfl

theorem C5_witness :
    runAux 1 5 (fun _ => RoundOutcome.jsError) 1 ⟨1, 0, ∅⟩ =
      some ⟨FinalReason.fatal, ∅⟩ :=
  C5_fatal 1 5 (fun _ => RoundOutcome.jsError) 0 ⟨1, 0, ∅⟩ (by decide) (Or.inl rfl)

lemma mem_foldl_union (els : List Html) (init : Finset String) (d : String) :
    d ∈ els.foldl (fun acc e => acc ∪ extract_email_domains e) init ↔
      d ∈ init ∨ ∃ e ∈ els, d ∈ extract_email_domains e := by
  induction els generalizing init with
  | nil => simp
  | cons e t ih =>
    rw [List.foldl_cons, ih]
    simp [Finset.mem_union, or_assoc]

/-- C6 (amended): scoped extraction is the union of extraction over each
selected sub-element, falling back to extraction over the whole page
when none are selected. -/
theorem C6_amended (page : Html) (d : String) :
    d ∈ scopedExtract page ↔
      (if (selectedElems page).isEmpty then d ∈ extract_email_domains page
       else ∃ e ∈ selectedElems page, d ∈ extract_email_domains e) := by
  rw [scopedExtract]
  by_cases he : (selectedElems page).isEmpty
  · simp [he]
  · simp only [he, if_false, Bool.false_eq_true]
    rw [mem_foldl_union]
    simp

/-- C6 as stated is false: the code unions per-element extraction, which
differs from extraction over the concatenated markup. -/
theorem C6_counterexample :
    scopedExtract cePage ≠ specConcatExtract (selectedElems cePage) := by
  decide

lemma foldl_append_eq (l : List String) :
    ∀ acc : String, l.foldl (fun a d => a ++ d ++ "\n") acc =
      acc ++ String.join (l.map (fun d => d ++ "\n")) := by
  induction l with
  | nil =>
    intro acc
    simp [String.join]
  | cons x t ih =>
    intro acc
    rw [List.foldl_cons, ih, List.map_cons]
    apply String.ext
    simp [String.data_append, String.data_join]

/-- C7 (amended): whenever the run found at least one domain, `main`
persists both artifacts: the text file is the sorted domains, one per
line, each newline-terminated, and the JSON array is the same sorted
list; the sort is lexicographic and loses no domain. -/
theorem C7_amended (domains : Finset String) (hne : domains ≠ ∅) :
    mainArtifacts domains =
      some (String.join ((sortedDomains domains).map (fun d => d ++ "\n")),
        sortedDomains domains) ∧
    List.Sorted (· ≤ ·) (sortedDomains domains) ∧
    (∀ d, d ∈ sortedDomains domains ↔ d ∈ domains) := by
  refine ⟨?_, Finset.sort_sorted _ domains, fun d => Finset.mem_sort _⟩
  rw [mainArtifacts, if_pos hne, save_results, foldl_append_eq]
  simp

theorem C7_witness :
    mainArtifacts {"@moe.gov.sg"} =
      some (String.join ((sortedDomains {"@moe.gov.sg"}).map (fun d => d ++ "\n")),
        sortedDomains {"@moe.gov.sg"}) :=
  (C7_amended {"@moe.gov.sg"} (by decide)).1

/-- C7 as stated is false: a run that accumulated no domains persists
nothing (`main` only saves inside `if domains:`). -/
theorem C7_counterexample : mainArtifacts ∅ = none := by decide

/-- C8: the concrete extraction example of the specification. -/
theorem C8_concrete :
    extract_email_domains
        (Html.text "reach us at john@moe.gov.sg or JANE@MOH.GOV.SG") =
      {"@moe.gov.sg", "@moh.gov.sg"} := by
  decide

/-- C9 as stated is false: with threshold 2 and cap 2, both rounds yield
the same singleton extraction, yet the loop stops at the iteration cap,
not in the no-progress state. -/
theorem C9_counterexample :
    scrapeRun 2 2 (fun _ => RoundOutcome.success moePage) =
        some ⟨FinalReason.capReached, {"@moe.gov.sg"}⟩ ∧
      scrapeRun 2 2 (fun _ => RoundOutcome.success moePage) ≠
        some ⟨FinalReason.noProgress, {"@moe.gov.sg"}⟩ := by
  decide

lemma runAux_round (cap threshold : Nat) (outcomes : Nat → RoundOutcome)
    (fuel i cnt : Nat) (ds : Finset String) (hle : i ≤ cap) :
    runAux cap threshold outcomes (fuel + 1) ⟨i, cnt, ds⟩ =
      match loopStep threshold (outcomes i) ⟨i, cnt, ds⟩ with
      | .next st' => runAux cap threshold outcomes fuel st'
      | .stop r d => some ⟨r, d⟩ := by
  rw [runAux, if_neg (by show ¬ cap < i; omega)]

/-- C9 (amended): with threshold 2 and an empty start, it takes three
consecutive rounds yielding the singleton extraction (and a cap of at
least 3) to stop in the no-progress state: the first such round adds the
domain, and the next two are the no-progress rounds. -/
theorem C9_amended (cap : Nat) (outcomes : Nat → RoundOutcome)
    (hcap : 3 ≤ cap)
    (h1 : outcomes 1 = .success moePage)
    (h2 : outcomes 2 = .success moePage)
    (h3 : outcomes 3 = .success moePage) :
    scrapeRun cap 2 outcomes = some ⟨.noProgress, {"@moe.gov.sg"}⟩ := by
  obtain ⟨c, rfl⟩ : ∃ c, cap = c + 3 := ⟨cap - 3, by omega⟩
  have s1 : loopStep 2 (RoundOutcome.success moePage) ⟨1, 0, ∅⟩ =
      .next ⟨2, 0, {"@moe.gov.sg"}⟩ := by decide
  have s2 : loopStep 2 (RoundOutcome.success moePage) ⟨2, 0, {"@moe.gov.sg"}⟩ =
      .next ⟨3, 1, {"@moe.gov.sg"}⟩ := by decide
  have s3 : loopStep 2 (RoundOutcome.success moePage) ⟨3, 1, {"@moe.gov.sg"}⟩ =
      .stop .noProgress {"@moe.gov.sg"} := by decide
  show runAux (c + 3) 2 outcomes ((c + 4) + 1) ⟨1, 0, ∅⟩ = _
  rw [runAux_round (c + 3) 2 outcomes (c + 4) 1 0 ∅ (by omega), h1, s1]
  show runAux (c + 3) 2 outcomes ((c + 3) + 1) ⟨2, 0, {"@moe.gov.sg"}⟩ = _
  rw [runAux_round (c + 3) 2 outcomes (c + 3) 2 0 {"@moe.gov.sg"} (by omega), h2, s2]
  show runAux (c + 3) 2 outcomes ((c + 2) + 1) ⟨3, 1, {"@moe.gov.sg"}⟩ = _
  rw [runAux_round (c + 3) 2 outcomes (c + 2) 3 1 {"@moe.gov.sg"} (by omega), h3, s3]

theorem C9_witness :
    scrapeRun 3 2 (fun _ => RoundOutcome.success moePage) =
      some ⟨FinalReason.noProgress, {"@moe.gov.sg"}⟩ :=
  C9_amended 3 (fun _ => RoundOutcome.success moePage) (by omega) rfl rfl rfl

/-- C10: extraction scans only text content, so an address present only
in an attribute is never found, although the attribute value itself
would match. -/
theorem C10_attr_only :
    extract_email_domains attrPage = ∅ ∧
    extractText "mailto:john@moe.gov.sg" = {"@moe.gov.sg"} := by
  decide

end SgScraper
